import Mathlib

/-! BateauRC: the H-bridge driver `pontH` and its collaborators

A shallow embedding of `src/BateauRC/bateau/pontH.h`, of
`src/BateauRC/bateau/radioMessage.h` and of the angle conversion of
`src/BateauRC/telecomande/joystickToMotors.h`.

Machine integers are modelled as `Int` with explicit wrap-around at every
place where the source stores a value into a fixed-width variable:
`uint8_t` stores go through `toUInt8`, `int8_t` stores through `toInt8`.
Arguments of `map` are `long`; all values that reach it are 8-bit operands,
so the `long` products stay far below `2^31` and no wrap is applied there.
-/

namespace BateauRC

/-! ## Fixed-width stores -/

/-- Value kept by a `uint8_t` variable when an integer `x` is stored into it. -/
def toUInt8 (x : Int) : Int := x % 256

/-- Value kept by an `int8_t` variable when an integer `x` is stored into it
(two's complement wrap-around). -/
def toInt8 (x : Int) : Int := (x + 128) % 256 - 128

/-! ## Arduino core routines used by the driver -/

/-- Modelled from the spec: the Arduino core routine `map`, which the repository
calls but does not define. It is the linear rescale of `x` from the domain
`[in_min, in_max]` onto the range `[out_min, out_max]`, computed on `long`
operands as `(x - in_min) * (out_max - out_min) / (in_max - in_min) + out_min`
with the truncating division of C. An empty domain (`in_max = in_min`) is a
division by zero, reported here as `none`. -/
def map (x in_min in_max out_min out_max : Int) : Option Int :=
  if in_max - in_min = 0 then none
  else some (Int.tdiv ((x - in_min) * (out_max - out_min)) (in_max - in_min) + out_min)

/-- Modelled from the spec: the Arduino core `abs`, which the repository calls
but does not define: `((x) > 0 ? (x) : -(x))`. -/
def abs (x : Int) : Int := if x > 0 then x else -x

/-! ## Driver state -/

/-- The data members of class `pontH`. Arrays of two elements are indexed by
the motor index (`0` left, `1` right). -/
structure pontH where
  /-- `int m_pwmPin[2]` -/
  m_pwmPin : Fin 2 → Int
  /-- `int m_directionPin[2]` -/
  m_directionPin : Fin 2 → Int
  /-- `uint8_t m_regimeMinimum` -/
  m_regimeMinimum : Int
  /-- `uint8_t m_overBoostDelay` -/
  m_overBoostDelay : Int
  /-- `uint8_t m_vitesse[2]` -/
  m_vitesse : Fin 2 → Int
  /-- `uint8_t m_pwmOld[2]` -/
  m_pwmOld : Fin 2 → Int
  /-- `bool m_directionOld[2]` -/
  m_directionOld : Fin 2 → Bool

/-- `pontH::setRegimeMinimum`. -/
def setRegimeMinimum (self : pontH) (regimeMinimum : Int) : pontH :=
  { self with m_regimeMinimum := regimeMinimum }

/-- `pontH::setOverBoostDelay`. -/
def setOverBoostDelay (self : pontH) (overBoostDelay : Int) : pontH :=
  { self with m_overBoostDelay := overBoostDelay }

/-! ## Speed mapper -/

/-- `pontH::speedToPwmDirection`. The source writes its results through the
reference parameters `vitesse` (in/out), `pwm` and `direction`; here they are
returned as the triple `(vitesse, pwm, direction)`. -/
def speedToPwmDirection (self : pontH) (vitesse : Int) : Option (Int × Int × Bool) :=
  let vitesse := if vitesse > 100 then 100 else vitesse
  let vitesse := if vitesse < -100 then -100 else vitesse
  let direction : Bool := decide (vitesse ≥ 0)
  let vitesseAbs := toInt8 (abs vitesse)
  if vitesseAbs ≠ 0 then
    (map vitesseAbs 0 100 self.m_regimeMinimum 255).map
      fun r => (vitesse, toUInt8 r, direction)
  else
    some (vitesse, 0, direction)

/-! ## Overdrive calculator -/

/-- `pontH::computeOverDriveDelay`. The result is the value left in the
`int8_t` out-parameter `delai`. -/
def computeOverDriveDelay (self : pontH) (leftRight : Fin 2) (pwm : Int) (direction : Bool) :
    Option Int :=
  if pwm ≠ 0 then
    if self.m_directionOld leftRight ≠ direction ∨ self.m_pwmOld leftRight = 0 then
      let pwmDiff := toUInt8 (pwm - self.m_regimeMinimum)
      (map pwmDiff self.m_regimeMinimum 0 0 self.m_overBoostDelay).map toInt8
    else
      some 0
  else
    some 0

/-- State left by the constructor `pontH::pontH`. The constructor assigns the
configuration, `m_vitesse` and the pins; it does not assign `m_pwmOld` and
`m_directionOld`, whose contents are therefore parameters here. -/
def pontH.init (pwmGauchePin directionGauchePin pwmDroitePin directionDroitePin : Int)
    (pwmOld : Fin 2 → Int) (directionOld : Fin 2 → Bool) : pontH :=
  { m_regimeMinimum := 127
    m_overBoostDelay := 100
    m_vitesse := fun _ => 0
    m_pwmPin := fun i => if i = 0 then pwmGauchePin else pwmDroitePin
    m_directionPin := fun i => if i = 0 then directionGauchePin else directionDroitePin
    m_pwmOld := pwmOld
    m_directionOld := directionOld }

/-! ## Sample states -/

/-- A driver in its default configuration whose two motors are stopped. -/
def stoppedDriver : pontH := pontH.init 5 4 6 7 (fun _ => 0) (fun _ => true)

/-- A driver in its default configuration whose two motors run forward at duty 200. -/
def runningDriver : pontH := pontH.init 5 4 6 7 (fun _ => 200) (fun _ => true)

/-! ## Hardware writes and the drive sequencer -/

/-- Value kept by a `uint16_t` variable when an integer `x` is stored into it.
On the AVR target of the boat (`reboot.h` includes `<avr/wdt.h>`) `int` is 16
bits wide, so this is also the result of an `int` and `unsigned int`
operation. -/
def toUInt16 (x : Int) : Int := x % 65536

/-- One call of the Arduino core that the driver performs on the hardware, in
program order: `digitalWrite(pin, val)`, `analogWrite(pin, val)` and the
blocking `delay(ms)`. -/
inductive HwEvent where
  | digitalWrite (pin : Int) (val : Bool)
  | analogWrite (pin : Int) (val : Int)
  | delay (ms : Int)
  deriving DecidableEq, Repr

/-- `pontH::applyDrive`, as the sequence of hardware calls it performs.
`overlapTime` is a `uint16_t`; the argument of the second `delay` is the
difference of an `int8_t` (promoted to `int`) and a `uint16_t`, computed as a
16-bit `unsigned int` and then widened to the `unsigned long` parameter. -/
def applyDrive (self : pontH) (pwmGauche : Int) (directionGauche : Bool)
    (overdriveDelaiGauche : Int) (pwmDroit : Int) (directionDroite : Bool)
    (overdriveDelaiDroit : Int) : List HwEvent :=
  if overdriveDelaiGauche > overdriveDelaiDroit then
    let overlapTime := toUInt16 (overdriveDelaiGauche - overdriveDelaiDroit)
    [ HwEvent.digitalWrite (self.m_directionPin 0) (!directionGauche),
      HwEvent.analogWrite (self.m_pwmPin 0) (if directionGauche then 255 else 0),
      HwEvent.digitalWrite (self.m_directionPin 1) (!directionDroite),
      HwEvent.analogWrite (self.m_pwmPin 1) (if directionDroite then 255 else 0),
      HwEvent.delay overlapTime,
      HwEvent.analogWrite (self.m_pwmPin 1) pwmDroit,
      HwEvent.delay (toUInt16 (overdriveDelaiGauche - overlapTime)),
      HwEvent.analogWrite (self.m_pwmPin 0) pwmGauche ]
  else
    let overlapTime := toUInt16 (overdriveDelaiDroit - overdriveDelaiGauche)
    [ HwEvent.digitalWrite (self.m_directionPin 0) (!directionGauche),
      HwEvent.analogWrite (self.m_pwmPin 0) (if directionGauche then 255 else 0),
      HwEvent.digitalWrite (self.m_directionPin 1) (!directionDroite),
      HwEvent.analogWrite (self.m_pwmPin 1) (if directionDroite then 255 else 0),
      HwEvent.delay overlapTime,
      HwEvent.analogWrite (self.m_pwmPin 0) pwmGauche,
      HwEvent.delay (toUInt16 (overdriveDelaiDroit - overlapTime)),
      HwEvent.analogWrite (self.m_pwmPin 1) pwmDroit ]

/-- `pontH::vitesseMoteurs`: the driver state after the call together with the
hardware calls performed, or `none` when one of the rescales divides by zero.
`m_vitesse` is a `uint8_t` array that receives the clamped `int8_t` speeds. -/
def vitesseMoteurs (self : pontH) (gauche droit : Int) : Option (pontH × List HwEvent) :=
  (speedToPwmDirection self gauche).bind fun (vitesseGauche, pwmGauche, directionGauche) =>
  (speedToPwmDirection self droit).bind fun (vitesseDroite, pwmDroite, directionDroite) =>
  (computeOverDriveDelay self 0 pwmGauche directionGauche).bind fun delaiGauche =>
  (computeOverDriveDelay self 1 pwmDroite directionDroite).bind fun delaiDroite =>
  let self1 : pontH :=
    { self with
      m_pwmOld := fun i => if i = 0 then pwmGauche else pwmDroite
      m_directionOld := fun i => if i = 0 then directionGauche else directionDroite }
  let pwmGauche := toUInt8 (if directionGauche then pwmGauche else 255 - pwmGauche)
  let pwmDroite := toUInt8 (if directionDroite then pwmDroite else 255 - pwmDroite)
  let trace := applyDrive self1 pwmGauche directionGauche delaiGauche
    pwmDroite directionDroite delaiDroite
  some ({ self1 with
          m_vitesse := fun i => if i = 0 then toUInt8 vitesseGauche else toUInt8 vitesseDroite },
        trace)

/-- `pontH::stopMoteurs`: the hardware calls performed. It assigns no data
member. The `debugln` line expands to nothing unless `BATEAU_DEBUG` is defined
and is not a hardware write. `LOW` is `false`. -/
def stopMoteurs (self : pontH) : List HwEvent :=
  [ HwEvent.digitalWrite (self.m_pwmPin 0) false,
    HwEvent.digitalWrite (self.m_pwmPin 1) false,
    HwEvent.digitalWrite (self.m_directionPin 0) false,
    HwEvent.digitalWrite (self.m_directionPin 1) false ]

/-! ## Observations on a sequence of hardware calls -/

/-- The arguments of the `delay` calls of a sequence, in order. -/
def waits : List HwEvent → List Int
  | [] => []
  | HwEvent.delay ms :: rest => ms :: waits rest
  | _ :: rest => waits rest

/-- Total time, in milliseconds, that a sequence of hardware calls blocks. -/
def totalDelay (trace : List HwEvent) : Int := (waits trace).sum

/-- The value that a hardware call writes to `pin`, if it writes to it
(`LOW` is 0 and `HIGH` is 1 for a `digitalWrite`). -/
def HwEvent.writeTo (pin : Int) : HwEvent → Option Int
  | HwEvent.digitalWrite p v => if p = pin then some (if v then 1 else 0) else none
  | HwEvent.analogWrite p v => if p = pin then some v else none
  | HwEvent.delay _ => none

/-- The value left on `pin` by a sequence of hardware calls: the value of the
last write to that pin, or `none` when the sequence never writes to it. -/
def lastWrite (pin : Int) (trace : List HwEvent) : Option Int :=
  (trace.reverse.filterMap (HwEvent.writeTo pin)).head?

/-- A driver in its default configuration whose left motor is stopped and whose
right motor runs forward at duty 190. -/
def scenarioDriver : pontH :=
  pontH.init 5 4 6 7 (fun i => if i = 0 then 0 else 190) (fun _ => true)

/-- `pontH::stopMoteurs` as a state transition: the driver state after the call
and the hardware calls performed. The body of the source function assigns no
data member, so the state is handed back as it was received. -/
def stopMoteursStep (self : pontH) : pontH × List HwEvent := (self, stopMoteurs self)

/-! ## Radio message (`radioMessage.h`) -/

/-- The `radioMessage` struct. Each `char` field is represented by its 8-bit
pattern, a number in `0..255`: the bitwise operations and the comparison of
the source act on that pattern whether `char` is signed or not. -/
structure radioMessage where
  /-- `char cmd` -/
  cmd : Nat
  /-- `char gauche` -/
  gauche : Nat
  /-- `char droit` -/
  droit : Nat
  /-- `char check` -/
  check : Nat

/-- `computeCheck`: `msg.cmd ^ msg.gauche ^ msg.droit`, returned as a `char`. -/
def computeCheck (msg : radioMessage) : Nat := (msg.cmd ^^^ msg.gauche ^^^ msg.droit) % 256

/-- `assignCheck`: `msg.check = computeCheck(msg)`. -/
def assignCheck (msg : radioMessage) : radioMessage := { msg with check := computeCheck msg }

/-- `messageIsValid`: `msg.check == computeCheck(msg)`. -/
def messageIsValid (msg : radioMessage) : Bool := msg.check == computeCheck msg

/-! ## Joystick to motors (`joystickToMotors.h`) -/

/-- `joystickToMotors::mapping`. -/
inductive mapping where
  | simple
  | smooth
  | mappinEnumSize
  deriving DecidableEq, Repr

/-- The data members of class `joystickToMotors`. -/
structure joystickToMotors where
  /-- `int m_angle` -/
  m_angle : Int
  /-- `mapping m_algo` -/
  m_algo : mapping

/-- State left by the constructor `joystickToMotors()`. -/
def joystickToMotors.init : joystickToMotors := { m_angle := 45, m_algo := mapping.smooth }

/-- `joystickToMotors::simpleConversion`. The outputs `g` and `d` are reference
parameters: when no branch is taken they keep the values received. -/
def simpleConversion (uAngle g d : Int) : Option (Int × Int) :=
  if uAngle < 90 then
    (map uAngle 0 90 0 100).map fun r => (100, r)
  else if uAngle < 180 then
    (map uAngle 90 180 100 0).map fun r => (r, 100)
  else
    some (g, d)

/-- `joystickToMotors::smoothConversion`, returning `(g, d)`. Every branch
assigns both outputs, so the values received in `g` and `d` play no part. -/
def smoothConversion (self : joystickToMotors) (uAngle : Int) : Option (Int × Int) :=
  if uAngle > 180 - self.m_angle then
    (map uAngle (180 - self.m_angle) 180 100 0).map fun r => (0, r)
  else if uAngle > 90 then
    (map uAngle 90 (180 - self.m_angle) 100 0).map fun r => (r, 100)
  else if uAngle > 90 - self.m_angle then
    (map uAngle self.m_angle 90 0 100).map fun r => (100, r)
  else
    (map uAngle 0 self.m_angle 0 100).map fun r => (r, 0)

/-- `joystickToMotors::polaireToMotor`, returning `(g, d)`. The `double` angle
is represented by an integer: only whole numbers of degrees are modelled, for
which the conversion `(long)angle` is exact. `magnitude` is an `int8_t`
parameter; the products `(int8_t)gauche * magnitude` of two 8-bit values fit
in a 16-bit `int`. -/
def polaireToMotor (self : joystickToMotors) (angle magnitude : Int) : Option (Int × Int) :=
  let uAngle := angle
  let uAngle := if angle < 0 then 0 - uAngle else uAngle
  let magnitude := if angle < 0 then toInt8 (0 - magnitude) else magnitude
  let conv : Option (Int × Int) :=
    match self.m_algo with
    | mapping.simple => simpleConversion uAngle 0 0
    | mapping.smooth => smoothConversion self uAngle
    | mapping.mappinEnumSize => some (0, 0)
  conv.map fun (gauche, droit) =>
    (toInt8 (Int.tdiv (toInt8 gauche * magnitude) 100),
     toInt8 (Int.tdiv (toInt8 droit * magnitude) 100))

/-! ## Auxiliary facts -/

theorem toInt8_of_range {x : Int} (h1 : -128 ≤ x) (h2 : x ≤ 127) : toInt8 x = x := by
  unfold toInt8; omega

theorem toUInt8_of_range {x : Int} (h1 : 0 ≤ x) (h2 : x ≤ 255) : toUInt8 x = x := by
  unfold toUInt8; omega

theorem abs_eq_natAbs (x : Int) : abs x = (x.natAbs : Int) := by
  unfold abs; split <;> omega

/-- Truncating division of a non-positive numerator by a negative divisor is
the ordinary quotient of the two magnitudes. -/
theorem tdiv_nonpos_neg {a b : Int} (ha : a ≤ 0) (hb : 0 < b) :
    Int.tdiv a (-b) = (-a) / b := by
  have h : a = -(-a) := by omega
  rw [Int.tdiv_neg]
  conv_lhs => rw [h, Int.neg_tdiv]
  rw [Int.tdiv_eq_ediv (by omega) (by omega)]
  omega

/-- The rescaled duty `v * (255 - m) / 100 + m` stays between `m` and `255`
for a magnitude `v` in `[0, 100]`. -/
theorem duty_bounds {m v : Int} (hm0 : 0 ≤ m) (hm : m ≤ 255) (hv0 : 0 ≤ v) (hv : v ≤ 100) :
    m ≤ Int.tdiv (v * (255 - m)) 100 + m ∧ Int.tdiv (v * (255 - m)) 100 + m ≤ 255 := by
  have hp0 : 0 ≤ v * (255 - m) := Int.mul_nonneg hv0 (by omega)
  have hp : v * (255 - m) ≤ 100 * (255 - m) := Int.mul_le_mul_of_nonneg_right hv (by omega)
  rw [Int.tdiv_eq_ediv hp0 (by decide)]
  generalize v * (255 - m) = p at hp0 hp
  omega

/-- The rescaled duty does not decrease when the magnitude grows. -/
theorem duty_mono {m v w : Int} (hm : m ≤ 255) (hv0 : 0 ≤ v) (hvw : v ≤ w) :
    Int.tdiv (v * (255 - m)) 100 + m ≤ Int.tdiv (w * (255 - m)) 100 + m := by
  have hp0 : 0 ≤ v * (255 - m) := Int.mul_nonneg hv0 (by omega)
  have hp : v * (255 - m) ≤ w * (255 - m) := Int.mul_le_mul_of_nonneg_right hvw (by omega)
  rw [Int.tdiv_eq_ediv hp0 (by decide), Int.tdiv_eq_ediv (le_trans hp0 hp) (by decide)]
  have := Int.ediv_le_ediv (c := 100) (by decide) hp
  omega

/-- Closed form of the speed mapper: the speed is clamped to `[-100, 100]`,
the direction is the sign of the clamped speed, and a nonzero clamped speed
is rescaled by `map`. -/
theorem speedToPwmDirection_eq (self : pontH) (s : Int) :
    speedToPwmDirection self s =
      some (max (-100) (min s 100),
        if max (-100) (min s 100) = 0 then 0
        else toUInt8 (Int.tdiv (((max (-100) (min s 100)).natAbs : Int)
              * (255 - self.m_regimeMinimum)) 100 + self.m_regimeMinimum),
        decide (0 ≤ max (-100) (min s 100))) := by
  have hc : (if (if s > 100 then 100 else s) < -100 then (-100 : Int)
      else (if s > 100 then 100 else s)) = max (-100) (min s 100) := by
    split_ifs <;> omega
  unfold speedToPwmDirection
  simp only [hc]
  have hb : -100 ≤ max (-100) (min s 100) ∧ max (-100) (min s 100) ≤ 100 := by omega
  generalize max (-100) (min s 100) = c at hb
  have ha : toInt8 (abs c) = (c.natAbs : Int) := by
    rw [abs_eq_natAbs]; exact toInt8_of_range (by omega) (by omega)
  rw [ha]
  by_cases h0 : c = 0
  · subst h0; simp
  · have hn : (c.natAbs : Int) ≠ 0 := by omega
    simp [h0, hn, map]

/-- For a minimum duty in `0..255` and a nonzero speed, the speed mapper
returns the clamped speed together with a duty between the minimum duty and
255. -/
theorem speedToPwmDirection_of_ne_zero (self : pontH) (s : Int)
    (hm0 : 0 ≤ self.m_regimeMinimum) (hm : self.m_regimeMinimum ≤ 255) (hs : s ≠ 0) :
    ∃ pwm dir, speedToPwmDirection self s = some (max (-100) (min s 100), pwm, dir) ∧
      self.m_regimeMinimum ≤ pwm ∧ pwm ≤ 255 := by
  refine ⟨_, _, speedToPwmDirection_eq self s, ?_⟩
  have hc : max (-100) (min s 100) ≠ 0 := by omega
  have hb : -100 ≤ max (-100) (min s 100) ∧ max (-100) (min s 100) ≤ 100 := by omega
  generalize max (-100) (min s 100) = c at hb hc
  have hd := duty_bounds (v := (c.natAbs : Int)) hm0 hm (by omega) (by omega)
  rw [if_neg hc, toUInt8_of_range (by omega) hd.2]
  exact hd

/-! ## Speed mapper: claims C1 to C6 -/

/-- Claim C1. For a minimum duty `m` in `0..255` and any speed `s`, the speed
mapper returns the clamped speed and a duty `pwm`; when the clamped speed is
not 0 the duty satisfies `m ≤ pwm ≤ 255`. Consequently, whenever the duty is
nonzero (the guard under which `computeOverDriveDelay` evaluates
`pwm - m_regimeMinimum`), the difference is non-negative and the `uint8_t`
store of it does not wrap. -/
theorem speedToPwmDirection_duty_range (self : pontH) (s : Int)
    (hm0 : 0 ≤ self.m_regimeMinimum) (hm : self.m_regimeMinimum ≤ 255) :
    ∃ pwm dir, speedToPwmDirection self s = some (max (-100) (min s 100), pwm, dir) ∧
      (max (-100) (min s 100) ≠ 0 → self.m_regimeMinimum ≤ pwm ∧ pwm ≤ 255) ∧
      (pwm ≠ 0 → 0 ≤ pwm - self.m_regimeMinimum ∧
        toUInt8 (pwm - self.m_regimeMinimum) = pwm - self.m_regimeMinimum) := by
  refine ⟨_, _, speedToPwmDirection_eq self s, ?_⟩
  have hb : -100 ≤ max (-100) (min s 100) ∧ max (-100) (min s 100) ≤ 100 := by omega
  generalize max (-100) (min s 100) = c at hb
  have hd := duty_bounds (v := (c.natAbs : Int)) hm0 hm (by omega) (by omega)
  rw [toUInt8_of_range (by omega) hd.2]
  by_cases h0 : c = 0
  · simp [h0]
  · simp only [h0, if_false, ne_eq, not_false_eq_true, true_implies]
    refine ⟨hd, fun _ => ⟨by omega, toUInt8_of_range (by omega) (by omega)⟩⟩

/-- Witness of C1: the default configuration and the speed 50. -/
theorem speedToPwmDirection_duty_range_witness :
    (0 ≤ stoppedDriver.m_regimeMinimum ∧ stoppedDriver.m_regimeMinimum ≤ 255) ∧
    ∃ pwm dir, speedToPwmDirection stoppedDriver 50 = some (max (-100) (min 50 100), pwm, dir) ∧
      (max (-100) (min (50 : Int) 100) ≠ 0 →
        stoppedDriver.m_regimeMinimum ≤ pwm ∧ pwm ≤ 255) ∧
      (pwm ≠ 0 → 0 ≤ pwm - stoppedDriver.m_regimeMinimum ∧
        toUInt8 (pwm - stoppedDriver.m_regimeMinimum) = pwm - stoppedDriver.m_regimeMinimum) :=
  ⟨by decide, speedToPwmDirection_duty_range stoppedDriver 50 (by decide) (by decide)⟩

/-- Claim C2. A speed of exactly 0 yields duty 0, with the direction recorded as
forward, whatever the configured minimum duty. -/
theorem speedToPwmDirection_zero (self : pontH) :
    speedToPwmDirection self 0 = some (0, 0, true) := by
  rw [speedToPwmDirection_eq]; simp

/-- Claim C3. For a minimum duty `m` in `0..255` and a speed whose clamped value
`c` is not 0, the duty is `m + (|c| * (255 - m)) / 100` with truncating
division; when `|c| = 100` the duty is exactly 255. -/
theorem speedToPwmDirection_linear_rescale (self : pontH) (s : Int)
    (hm0 : 0 ≤ self.m_regimeMinimum) (hm : self.m_regimeMinimum ≤ 255)
    (hc : max (-100) (min s 100) ≠ 0) :
    (∃ dir, speedToPwmDirection self s =
      some (max (-100) (min s 100),
        self.m_regimeMinimum +
          Int.tdiv (|max (-100) (min s 100)| * (255 - self.m_regimeMinimum)) 100,
        dir)) ∧
    (|max (-100) (min s 100)| = 100 →
      ∃ dir, speedToPwmDirection self s = some (max (-100) (min s 100), 255, dir)) := by
  rw [speedToPwmDirection_eq, if_neg hc, Int.abs_eq_natAbs]
  have hb : -100 ≤ max (-100) (min s 100) ∧ max (-100) (min s 100) ≤ 100 := by omega
  generalize max (-100) (min s 100) = c at hb hc
  have hd := duty_bounds (v := (c.natAbs : Int)) hm0 hm (by omega) (by omega)
  rw [toUInt8_of_range (by omega) hd.2]
  refine ⟨⟨decide (0 ≤ c), by rw [Int.add_comm]⟩, fun h => ⟨decide (0 ≤ c), ?_⟩⟩
  have h255 : Int.tdiv (100 * (255 - self.m_regimeMinimum)) 100 + self.m_regimeMinimum = 255 := by
    rw [Int.tdiv_eq_ediv (by omega) (by decide)]; omega
  rw [h, h255]

/-- Witness of C3: the default configuration and the speed 50, mapped to 191. -/
theorem speedToPwmDirection_linear_rescale_witness :
    (0 ≤ stoppedDriver.m_regimeMinimum ∧ stoppedDriver.m_regimeMinimum ≤ 255 ∧
      max (-100) (min (50 : Int) 100) ≠ 0) ∧
    ((∃ dir, speedToPwmDirection stoppedDriver 50 =
      some (max (-100) (min 50 100),
        stoppedDriver.m_regimeMinimum +
          Int.tdiv (|max (-100) (min 50 100)| * (255 - stoppedDriver.m_regimeMinimum)) 100,
        dir)) ∧
    (|max (-100) (min (50 : Int) 100)| = 100 →
      ∃ dir, speedToPwmDirection stoppedDriver 50 = some (max (-100) (min 50 100), 255, dir))) :=
  ⟨by decide, speedToPwmDirection_linear_rescale stoppedDriver 50
    (by decide) (by decide) (by decide)⟩

/-- Claim C4. Out-of-range speeds are clamped, not rejected: for every speed `s`
the mapper returns a result, the clamped speed it returns lies in
`[-100, 100]`, the result for `s` is the result for the clamped speed, every
`s > 100` gives the result of `+100` and every `s < -100` the result of `-100`. -/
theorem speedToPwmDirection_clamps (self : pontH) (s : Int) :
    ∃ c pwm dir, speedToPwmDirection self s = some (c, pwm, dir) ∧
      c = max (-100) (min s 100) ∧ -100 ≤ c ∧ c ≤ 100 ∧
      speedToPwmDirection self c = speedToPwmDirection self s ∧
      (100 < s → speedToPwmDirection self s = speedToPwmDirection self 100) ∧
      (s < -100 → speedToPwmDirection self s = speedToPwmDirection self (-100)) := by
  refine ⟨_, _, _, speedToPwmDirection_eq self s, rfl, by omega, by omega, ?_, ?_, ?_⟩
  · rw [speedToPwmDirection_eq, speedToPwmDirection_eq self s]
    have h : max (-100) (min (max (-100) (min s 100)) 100) = max (-100) (min s 100) := by omega
    rw [h]
  · intro h
    rw [speedToPwmDirection_eq, speedToPwmDirection_eq self 100]
    have h1 : max (-100) (min s 100) = max (-100) (min 100 100) := by omega
    rw [h1]
  · intro h
    rw [speedToPwmDirection_eq, speedToPwmDirection_eq self (-100)]
    have h1 : max (-100) (min s 100) = max (-100) (min (-100) 100) := by omega
    rw [h1]

/-- Claim C5. For every speed `s` the direction flag is forward exactly when
`s ≥ 0`, equivalently exactly when the clamped speed is `≥ 0`. -/
theorem speedToPwmDirection_direction (self : pontH) (s : Int) :
    ∃ c pwm dir, speedToPwmDirection self s = some (c, pwm, dir) ∧
      c = max (-100) (min s 100) ∧ (dir = true ↔ 0 ≤ s) ∧ (dir = true ↔ 0 ≤ c) := by
  refine ⟨_, _, _, speedToPwmDirection_eq self s, rfl, ?_, ?_⟩
  · rw [decide_eq_true_iff]; omega
  · rw [decide_eq_true_iff]

/-- Claim C6. For a minimum duty in `0..255` and two nonzero speeds `s1`, `s2`
whose clamped magnitudes satisfy `|c1| ≤ |c2|`, the duty computed for `s1` is at
most the duty computed for `s2`. -/
theorem speedToPwmDirection_monotone (self : pontH) (s1 s2 : Int)
    (hm0 : 0 ≤ self.m_regimeMinimum) (hm : self.m_regimeMinimum ≤ 255)
    (h1 : s1 ≠ 0) (h2 : s2 ≠ 0)
    (h : |max (-100) (min s1 100)| ≤ |max (-100) (min s2 100)|) :
    ∃ pwm1 dir1 pwm2 dir2,
      speedToPwmDirection self s1 = some (max (-100) (min s1 100), pwm1, dir1) ∧
      speedToPwmDirection self s2 = some (max (-100) (min s2 100), pwm2, dir2) ∧
      pwm1 ≤ pwm2 := by
  refine ⟨_, _, _, _, speedToPwmDirection_eq self s1, speedToPwmDirection_eq self s2, ?_⟩
  have hc1 : max (-100) (min s1 100) ≠ 0 := by omega
  have hc2 : max (-100) (min s2 100) ≠ 0 := by omega
  rw [if_neg hc1, if_neg hc2]
  rw [Int.abs_eq_natAbs, Int.abs_eq_natAbs] at h
  have hb1 : -100 ≤ max (-100) (min s1 100) ∧ max (-100) (min s1 100) ≤ 100 := by omega
  have hb2 : -100 ≤ max (-100) (min s2 100) ∧ max (-100) (min s2 100) ≤ 100 := by omega
  generalize max (-100) (min s1 100) = c1 at h hb1
  generalize max (-100) (min s2 100) = c2 at h hb2
  have hd1 := duty_bounds (v := (c1.natAbs : Int)) hm0 hm (by omega) (by omega)
  have hd2 := duty_bounds (v := (c2.natAbs : Int)) hm0 hm (by omega) (by omega)
  rw [toUInt8_of_range (by omega) hd1.2, toUInt8_of_range (by omega) hd2.2]
  exact duty_mono hm (by omega) h

/-- Witness of C6: the default configuration and the speeds 30 and -70. -/
theorem speedToPwmDirection_monotone_witness :
    (0 ≤ stoppedDriver.m_regimeMinimum ∧ stoppedDriver.m_regimeMinimum ≤ 255 ∧
      (30 : Int) ≠ 0 ∧ (-70 : Int) ≠ 0 ∧
      |max (-100) (min (30 : Int) 100)| ≤ |max (-100) (min (-70 : Int) 100)|) ∧
    ∃ pwm1 dir1 pwm2 dir2,
      speedToPwmDirection stoppedDriver 30 = some (max (-100) (min 30 100), pwm1, dir1) ∧
      speedToPwmDirection stoppedDriver (-70) = some (max (-100) (min (-70) 100), pwm2, dir2) ∧
      pwm1 ≤ pwm2 :=
  ⟨by decide, speedToPwmDirection_monotone stoppedDriver 30 (-70)
    (by decide) (by decide) (by decide) (by decide) (by decide)⟩

/-! ## Overdrive calculator: claims C7 to C10 -/

/-- When a compensation is required and the divisor `0 - m_regimeMinimum` is
not zero, the overdrive delay is the `int8_t` store of the rescaled
`pwmDiff`; it reads the last-applied state only through the guard. -/
theorem computeOverDriveDelay_compensated (self : pontH) (i : Fin 2) (pwm : Int) (dir : Bool)
    (hm : self.m_regimeMinimum ≠ 0) (hp : pwm ≠ 0)
    (hg : self.m_directionOld i ≠ dir ∨ self.m_pwmOld i = 0) :
    computeOverDriveDelay self i pwm dir =
      some (toInt8 (Int.tdiv
        ((toUInt8 (pwm - self.m_regimeMinimum) - self.m_regimeMinimum)
          * (self.m_overBoostDelay - 0)) (0 - self.m_regimeMinimum) + 0)) := by
  have hz : ¬ (0 - self.m_regimeMinimum = 0) := by omega
  unfold computeOverDriveDelay
  rw [if_pos hp, if_pos hg]
  simp only [map, if_neg hz, Option.map_some']

/-- Claim C7. If the new direction equals the motor's last-applied direction and
the motor's last-applied duty is nonzero, the overdrive delay is 0, whatever
the configuration and the new duty. -/
theorem computeOverDriveDelay_same_direction_running (self : pontH) (i : Fin 2) (pwm : Int)
    (dir : Bool) (hd : self.m_directionOld i = dir) (hp : self.m_pwmOld i ≠ 0) :
    computeOverDriveDelay self i pwm dir = some 0 := by
  unfold computeOverDriveDelay
  have hg : ¬ (self.m_directionOld i ≠ dir ∨ self.m_pwmOld i = 0) := by
    rintro (h | h)
    · exact h hd
    · exact hp h
  rw [if_neg hg]
  split <;> rfl

/-- Witness of C7: a motor running forward at duty 200 asked for duty 191 forward. -/
theorem computeOverDriveDelay_same_direction_running_witness :
    (runningDriver.m_directionOld 0 = true ∧ runningDriver.m_pwmOld 0 ≠ 0) ∧
    computeOverDriveDelay runningDriver 0 191 true = some 0 :=
  ⟨by decide, computeOverDriveDelay_same_direction_running runningDriver 0 191 true
    (by decide) (by decide)⟩

/-- Claim C8. If the new duty is 0 the overdrive delay is 0, for every
configuration, motor and last-applied state. -/
theorem computeOverDriveDelay_zero_duty (self : pontH) (i : Fin 2) (dir : Bool) :
    computeOverDriveDelay self i 0 dir = some 0 := by
  simp [computeOverDriveDelay]

/-- Counterexample to C9 as stated: in the default configuration, with the left
motor stopped, the speed 99 is mapped to the duty 253, which is below 255,
and the overdrive delay computed for it is 0. -/
theorem stall_restart_delay_zero_at_speed_99 :
    stoppedDriver.m_regimeMinimum = 127 ∧ stoppedDriver.m_overBoostDelay = 100 ∧
    stoppedDriver.m_pwmOld 0 = 0 ∧ (99 : Int) ≠ 0 ∧
    speedToPwmDirection stoppedDriver 99 = some (99, 253, true) ∧ (253 : Int) < 255 ∧
    computeOverDriveDelay stoppedDriver 0 253 true = some 0 ∧
    ¬ ∃ d, computeOverDriveDelay stoppedDriver 0 253 true = some d ∧ 0 < d := by
  have h0 : computeOverDriveDelay stoppedDriver 0 253 true = some 0 := by decide
  refine ⟨rfl, rfl, rfl, by decide, by decide, by decide, h0, ?_⟩
  rintro ⟨d, hd, hpos⟩
  rw [h0] at hd
  cases hd
  exact absurd hpos (by decide)

/-- Claim C9, amended. In the default configuration (minimum duty 127, overboost
delay 100), for a motor whose last-applied duty is 0 and a nonzero speed whose
mapped duty is at most 252, the overdrive delay computed from the mapped duty
is strictly greater than 0. -/
theorem stall_restart_delay_pos (self : pontH) (i : Fin 2) (s : Int)
    (hm : self.m_regimeMinimum = 127) (hb : self.m_overBoostDelay = 100)
    (hold : self.m_pwmOld i = 0) (hs : s ≠ 0) :
    ∃ c pwm dir, speedToPwmDirection self s = some (c, pwm, dir) ∧
      (pwm ≤ 252 → ∃ d, computeOverDriveDelay self i pwm dir = some d ∧ 0 < d) := by
  obtain ⟨pwm, dir, he, hr⟩ :=
    speedToPwmDirection_of_ne_zero self s (by omega) (by omega) hs
  refine ⟨_, pwm, dir, he, fun h252 => ?_⟩
  rw [hm] at hr
  rw [computeOverDriveDelay_compensated self i pwm dir (by omega) (by omega) (Or.inr hold),
    hm, hb, toUInt8_of_range (by omega) (by omega)]
  have hq : Int.tdiv ((pwm - 127 - 127) * (100 - 0)) (0 - 127) = ((254 - pwm) * 100) / 127 := by
    have := tdiv_nonpos_neg (a := (pwm - 127 - 127) * (100 - 0)) (b := 127)
      (by omega) (by decide)
    rw [show (0 : Int) - 127 = -127 from rfl, this]
    congr 1
    omega
  rw [hq]
  refine ⟨_, rfl, ?_⟩
  rw [toInt8_of_range (by omega) (by omega)]
  omega

/-- Witness of C9 (amended): the stopped left motor asked for speed 50. -/
theorem stall_restart_delay_pos_witness :
    (stoppedDriver.m_regimeMinimum = 127 ∧ stoppedDriver.m_overBoostDelay = 100 ∧
      stoppedDriver.m_pwmOld 0 = 0 ∧ (50 : Int) ≠ 0) ∧
    ∃ c pwm dir, speedToPwmDirection stoppedDriver 50 = some (c, pwm, dir) ∧
      (pwm ≤ 252 → ∃ d, computeOverDriveDelay stoppedDriver 0 pwm dir = some d ∧ 0 < d) :=
  ⟨by decide, stall_restart_delay_pos stoppedDriver 0 50 rfl rfl rfl (by decide)⟩

/-- Claim C10. For a configuration with minimum duty at least 1, when the new
duty is nonzero and the new direction differs from the motor's last-applied
direction, the overdrive delay is computed, and it is the delay that a
stall restart (any state `stall` with the same configuration and last-applied
duty 0) gets for the same target duty: the last-applied duty plays no part.
In particular, in the default configuration a motor last applied at duty 200
forward that is asked for speed -50 is mapped to duty 191 in reverse and gets
the delay 49, which is not 0. -/
theorem computeOverDriveDelay_reversal (self stall : pontH) (i : Fin 2) (pwm : Int) (dir : Bool)
    (hm : 1 ≤ self.m_regimeMinimum)
    (hcm : stall.m_regimeMinimum = self.m_regimeMinimum)
    (hcb : stall.m_overBoostDelay = self.m_overBoostDelay)
    (hp : pwm ≠ 0) (hd : self.m_directionOld i ≠ dir) (hstall : stall.m_pwmOld i = 0) :
    (∃ d, computeOverDriveDelay self i pwm dir = some d ∧
      computeOverDriveDelay stall i pwm dir = some d) ∧
    (runningDriver.m_pwmOld 0 = 200 ∧ runningDriver.m_directionOld 0 = true ∧
      speedToPwmDirection runningDriver (-50) = some (-50, 191, false) ∧
      computeOverDriveDelay runningDriver 0 191 false = some 49 ∧ (49 : Int) ≠ 0) := by
  refine ⟨⟨_, computeOverDriveDelay_compensated self i pwm dir (by omega) hp (Or.inl hd), ?_⟩,
    by decide⟩
  rw [computeOverDriveDelay_compensated stall i pwm dir (by omega) hp (Or.inr hstall), hcm, hcb]

/-- Witness of C10: the running driver reversed to duty 191, against the
stopped driver asked for the same duty. -/
theorem computeOverDriveDelay_reversal_witness :
    (1 ≤ runningDriver.m_regimeMinimum ∧
      stoppedDriver.m_regimeMinimum = runningDriver.m_regimeMinimum ∧
      stoppedDriver.m_overBoostDelay = runningDriver.m_overBoostDelay ∧
      (191 : Int) ≠ 0 ∧ runningDriver.m_directionOld 0 ≠ false ∧
      stoppedDriver.m_pwmOld 0 = 0) ∧
    ((∃ d, computeOverDriveDelay runningDriver 0 191 false = some d ∧
      computeOverDriveDelay stoppedDriver 0 191 false = some d) ∧
    (runningDriver.m_pwmOld 0 = 200 ∧ runningDriver.m_directionOld 0 = true ∧
      speedToPwmDirection runningDriver (-50) = some (-50, 191, false) ∧
      computeOverDriveDelay runningDriver 0 191 false = some 49 ∧ (49 : Int) ≠ 0)) :=
  ⟨by decide, computeOverDriveDelay_reversal runningDriver stoppedDriver 0 191 false
    (by decide) rfl rfl (by decide) (by decide) rfl⟩

/-! ## Auxiliary facts on the overdrive calculator and the sequencer -/

/-- The duty returned by the speed mapper is a `uint8_t` value, whatever the
configuration. -/
theorem speedToPwmDirection_uint8 (self : pontH) (s : Int) :
    ∃ c pwm dir, speedToPwmDirection self s = some (c, pwm, dir) ∧ 0 ≤ pwm ∧ pwm ≤ 255 := by
  refine ⟨_, _, _, speedToPwmDirection_eq self s, ?_⟩
  split
  · decide
  · unfold toUInt8; omega

/-- With a nonzero minimum duty the overdrive calculator always returns a delay. -/
theorem computeOverDriveDelay_defined (self : pontH) (i : Fin 2) (pwm : Int) (dir : Bool)
    (hm : self.m_regimeMinimum ≠ 0) : ∃ d, computeOverDriveDelay self i pwm dir = some d := by
  by_cases hp : pwm ≠ 0
  · by_cases hg : self.m_directionOld i ≠ dir ∨ self.m_pwmOld i = 0
    · exact ⟨_, computeOverDriveDelay_compensated self i pwm dir hm hp hg⟩
    · exact ⟨0, by simp only [computeOverDriveDelay, if_pos hp, if_neg hg]⟩
  · exact ⟨0, by simp only [computeOverDriveDelay, if_neg hp]⟩

/-- When the two PWM pins are distinct, the value left on each PWM pin by the
drive sequencer is the PWM value it was given for that motor. -/
theorem lastWrite_applyDrive (self : pontH) (pwmGauche pwmDroit : Int)
    (directionGauche directionDroite : Bool) (delaiGauche delaiDroit : Int)
    (hpins : self.m_pwmPin 0 ≠ self.m_pwmPin 1) :
    lastWrite (self.m_pwmPin 0)
      (applyDrive self pwmGauche directionGauche delaiGauche pwmDroit directionDroite delaiDroit)
        = some pwmGauche ∧
    lastWrite (self.m_pwmPin 1)
      (applyDrive self pwmGauche directionGauche delaiGauche pwmDroit directionDroite delaiDroit)
        = some pwmDroit := by
  have hpins1 : self.m_pwmPin 1 ≠ self.m_pwmPin 0 := fun h => hpins h.symm
  unfold applyDrive
  split
  · constructor <;>
      simp [lastWrite, HwEvent.writeTo, List.filterMap_cons, hpins, hpins1]
  · constructor <;>
      simp [lastWrite, HwEvent.writeTo, List.filterMap_cons, hpins, hpins1]

/-- Result of `vitesseMoteurs` once the two speed mappings and the two
overdrive delays are known. -/
theorem vitesseMoteurs_eq (self : pontH) (gauche droit : Int)
    {cG dutyG cD dutyD dG dD : Int} {dirG dirD : Bool}
    (hG : speedToPwmDirection self gauche = some (cG, dutyG, dirG))
    (hD : speedToPwmDirection self droit = some (cD, dutyD, dirD))
    (hdG : computeOverDriveDelay self 0 dutyG dirG = some dG)
    (hdD : computeOverDriveDelay self 1 dutyD dirD = some dD) :
    vitesseMoteurs self gauche droit =
      some ({ self with
              m_pwmOld := fun i => if i = 0 then dutyG else dutyD
              m_directionOld := fun i => if i = 0 then dirG else dirD
              m_vitesse := fun i => if i = 0 then toUInt8 cG else toUInt8 cD },
            applyDrive
              { self with
                m_pwmOld := fun i => if i = 0 then dutyG else dutyD
                m_directionOld := fun i => if i = 0 then dirG else dirD }
              (toUInt8 (if dirG then dutyG else 255 - dutyG)) dirG dG
              (toUInt8 (if dirD then dutyD else 255 - dutyD)) dirD dD) := by
  simp only [vitesseMoteurs, hG, hD, hdG, hdD, Option.some_bind]

/-! ## Overdrive calculator: claims C11 and C12 -/

/-- Claim C11, evaluated where it fails. With the minimum duty set to 50 (overboost
delay 100) and the left motor stopped, the speed 100 is mapped to duty 255 and
the overdrive delay stored for it is -54, which is negative; the sequencer then
blocks for 54 ms and for 65482 ms. With the overboost delay set to 200 (minimum
duty 127) the speed 1 is mapped to duty 128 and the stored delay is -58. -/
theorem overdrive_delay_negative_at_min_duty_50 :
    speedToPwmDirection (setRegimeMinimum stoppedDriver 50) 100 = some (100, 255, true) ∧
    computeOverDriveDelay (setRegimeMinimum stoppedDriver 50) 0 255 true = some (-54) ∧
    (vitesseMoteurs (setRegimeMinimum stoppedDriver 50) 100 0).map (fun r => waits r.2)
      = some [54, 65482] ∧
    speedToPwmDirection (setOverBoostDelay stoppedDriver 200) 1 = some (1, 128, true) ∧
    computeOverDriveDelay (setOverBoostDelay stoppedDriver 200) 0 128 true = some (-58) := by
  decide

/-- Claim C12. For a minimum duty in `1..255` and an overboost delay in `0..127`,
when a compensation is required (direction changed, or last-applied duty 0) and the
new duty equals the minimum duty, the overdrive delay equals the overboost delay. -/
theorem computeOverDriveDelay_at_floor (self : pontH) (i : Fin 2) (dir : Bool)
    (hm1 : 1 ≤ self.m_regimeMinimum) (hm : self.m_regimeMinimum ≤ 255)
    (hb0 : 0 ≤ self.m_overBoostDelay) (hb : self.m_overBoostDelay ≤ 127)
    (hg : self.m_directionOld i ≠ dir ∨ self.m_pwmOld i = 0) :
    computeOverDriveDelay self i self.m_regimeMinimum dir = some self.m_overBoostDelay := by
  rw [computeOverDriveDelay_compensated self i _ dir (by omega) (by omega) hg]
  have h0 : toUInt8 (self.m_regimeMinimum - self.m_regimeMinimum) = 0 := by
    rw [Int.sub_self]; rfl
  rw [h0, Int.sub_zero, Int.add_zero, Int.mul_tdiv_cancel_left _ (by omega),
    toInt8_of_range (by omega) hb]

/-- Witness of C12: the stopped left motor of the default configuration asked
for duty 127. -/
theorem computeOverDriveDelay_at_floor_witness :
    (1 ≤ stoppedDriver.m_regimeMinimum ∧ stoppedDriver.m_regimeMinimum ≤ 255 ∧
      0 ≤ stoppedDriver.m_overBoostDelay ∧ stoppedDriver.m_overBoostDelay ≤ 127 ∧
      (stoppedDriver.m_directionOld 0 ≠ true ∨ stoppedDriver.m_pwmOld 0 = 0)) ∧
    computeOverDriveDelay stoppedDriver 0 stoppedDriver.m_regimeMinimum true
      = some stoppedDriver.m_overBoostDelay :=
  ⟨by decide, computeOverDriveDelay_at_floor stoppedDriver 0 true
    (by decide) (by decide) (by decide) (by decide) (Or.inr rfl)⟩

/-! ## Drive sequencer: claims C13 to C18 -/

/-- Claim C13. For two delays `d1` (left) and `d2` (right) in `0..127`, the drive
sequencer performs exactly two blocking waits, whose sum, the total blocking
time, is `max d1 d2`; the first wait is the difference of the two delays and
the second is the smaller delay. When `d1 = d2 = 0` both waits are 0. -/
theorem applyDrive_total_wait (self : pontH) (pwmGauche pwmDroit : Int)
    (directionGauche directionDroite : Bool) (d1 d2 : Int)
    (h1 : 0 ≤ d1) (h1u : d1 ≤ 127) (h2 : 0 ≤ d2) (h2u : d2 ≤ 127) :
    ∃ w1 w2,
      waits (applyDrive self pwmGauche directionGauche d1 pwmDroit directionDroite d2)
        = [w1, w2] ∧
      w1 + w2 = max d1 d2 ∧
      totalDelay (applyDrive self pwmGauche directionGauche d1 pwmDroit directionDroite d2)
        = max d1 d2 ∧
      w1 = max d1 d2 - min d1 d2 ∧ w2 = min d1 d2 ∧
      (d1 = 0 → d2 = 0 → w1 = 0 ∧ w2 = 0) := by
  unfold totalDelay applyDrive
  split
  · refine ⟨_, _, rfl, ?_, ?_, ?_, ?_, ?_⟩
    all_goals simp only [waits, toUInt16, List.sum_cons, List.sum_nil]
    all_goals omega
  · refine ⟨_, _, rfl, ?_, ?_, ?_, ?_, ?_⟩
    all_goals simp only [waits, toUInt16, List.sum_cons, List.sum_nil]
    all_goals omega

/-- Witness of C13: the delays 49 and 0. -/
theorem applyDrive_total_wait_witness :
    ((0 : Int) ≤ 49 ∧ (49 : Int) ≤ 127 ∧ (0 : Int) ≤ 0 ∧ (0 : Int) ≤ 127) ∧
    ∃ w1 w2,
      waits (applyDrive stoppedDriver 191 true 49 191 true 0) = [w1, w2] ∧
      w1 + w2 = max 49 0 ∧
      totalDelay (applyDrive stoppedDriver 191 true 49 191 true 0) = max 49 0 ∧
      w1 = max 49 0 - min 49 0 ∧ w2 = min 49 0 ∧
      ((49 : Int) = 0 → (0 : Int) = 0 → w1 = 0 ∧ w2 = 0) :=
  ⟨by decide, applyDrive_total_wait stoppedDriver 191 191 true true 49 0
    (by decide) (by decide) (by decide) (by decide)⟩

/-- Claim C14. For two delays `d1` (left) and `d2` (right), both non-negative
`int8_t` values, the hardware calls that follow the four initial writes are: a
wait, the final duty of the motor with the strictly smaller delay, a wait, the
final duty of the motor with the larger delay. -/
theorem applyDrive_smaller_delay_first (self : pontH) (pwmGauche pwmDroit : Int)
    (directionGauche directionDroite : Bool) (d1 d2 : Int)
    (h1 : 0 ≤ d1) (h1u : d1 ≤ 127) (h2 : 0 ≤ d2) (h2u : d2 ≤ 127) :
    (d1 < d2 →
      (applyDrive self pwmGauche directionGauche d1 pwmDroit directionDroite d2).drop 4 =
        [HwEvent.delay (d2 - d1), HwEvent.analogWrite (self.m_pwmPin 0) pwmGauche,
         HwEvent.delay d1, HwEvent.analogWrite (self.m_pwmPin 1) pwmDroit]) ∧
    (d2 < d1 →
      (applyDrive self pwmGauche directionGauche d1 pwmDroit directionDroite d2).drop 4 =
        [HwEvent.delay (d1 - d2), HwEvent.analogWrite (self.m_pwmPin 1) pwmDroit,
         HwEvent.delay d2, HwEvent.analogWrite (self.m_pwmPin 0) pwmGauche]) := by
  constructor
  · intro h
    have hn : ¬ d1 > d2 := by omega
    have e1 : toUInt16 (d2 - d1) = d2 - d1 := by unfold toUInt16; omega
    have e2 : toUInt16 (d2 - (d2 - d1)) = d1 := by unfold toUInt16; omega
    simp only [applyDrive, if_neg hn, List.drop_succ_cons, List.drop_zero, e1, e2]
  · intro h
    have hp : d1 > d2 := h
    have e1 : toUInt16 (d1 - d2) = d1 - d2 := by unfold toUInt16; omega
    have e2 : toUInt16 (d1 - (d1 - d2)) = d2 := by unfold toUInt16; omega
    simp only [applyDrive, if_pos hp, List.drop_succ_cons, List.drop_zero, e1, e2]

/-- Witness of C14: the delays 20 (left) and 60 (right). -/
theorem applyDrive_smaller_delay_first_witness :
    ((0 : Int) ≤ 20 ∧ (20 : Int) ≤ 127 ∧ (0 : Int) ≤ 60 ∧ (60 : Int) ≤ 127 ∧ (20 : Int) < 60) ∧
    (applyDrive stoppedDriver 150 true 20 140 false 60).drop 4 =
      [HwEvent.delay (60 - 20), HwEvent.analogWrite (stoppedDriver.m_pwmPin 0) 150,
       HwEvent.delay 20, HwEvent.analogWrite (stoppedDriver.m_pwmPin 1) 140] :=
  ⟨by decide, (applyDrive_smaller_delay_first stoppedDriver 150 140 true false 20 60
    (by decide) (by decide) (by decide) (by decide)).1 (by decide)⟩

/-- Claim C15, evaluated where it fails. In the default configuration, with the
left motor stopped and the right motor running forward at duty 190, the call
`vitesseMoteurs(1, 50)` computes the delays 99 (left) and 0 (right); the
sequencer waits 99 ms before it writes the final duty 191 of the right motor,
whose own delay is 0, and then 0 ms before the final duty of the left motor. -/
theorem vitesseMoteurs_zero_delay_motor_waits :
    speedToPwmDirection scenarioDriver 1 = some (1, 128, true) ∧
    speedToPwmDirection scenarioDriver 50 = some (50, 191, true) ∧
    computeOverDriveDelay scenarioDriver 0 128 true = some 99 ∧
    computeOverDriveDelay scenarioDriver 1 191 true = some 0 ∧
    (vitesseMoteurs scenarioDriver 1 50).map (fun r => r.2.drop 4) =
      some [HwEvent.delay 99, HwEvent.analogWrite (scenarioDriver.m_pwmPin 1) 191,
            HwEvent.delay 0, HwEvent.analogWrite (scenarioDriver.m_pwmPin 0) 128] ∧
    (vitesseMoteurs scenarioDriver 1 50).map (fun r => totalDelay (r.2.take 5)) = some 99 := by
  decide

/-- Claim C16, evaluated where it fails. In the default configuration, with the
left motor stopped and the right motor running forward at duty 190, the call
`vitesseMoteurs(50, 50)` maps the left speed to duty 191, computes the delays
49 (left) and 0 (right), and performs: the four initial writes, a wait of
49 ms, the final duty of the right motor, a wait of 0 ms, the final duty of
the left motor. The right motor's final duty comes after the 49 ms wait. -/
theorem vitesseMoteurs_scenario_trace :
    speedToPwmDirection scenarioDriver 50 = some (50, 191, true) ∧
    computeOverDriveDelay scenarioDriver 0 191 true = some 49 ∧
    computeOverDriveDelay scenarioDriver 1 191 true = some 0 ∧
    (vitesseMoteurs scenarioDriver 50 50).map Prod.snd =
      some [HwEvent.digitalWrite (scenarioDriver.m_directionPin 0) false,
            HwEvent.analogWrite (scenarioDriver.m_pwmPin 0) 255,
            HwEvent.digitalWrite (scenarioDriver.m_directionPin 1) false,
            HwEvent.analogWrite (scenarioDriver.m_pwmPin 1) 255,
            HwEvent.delay 49,
            HwEvent.analogWrite (scenarioDriver.m_pwmPin 1) 191,
            HwEvent.delay 0,
            HwEvent.analogWrite (scenarioDriver.m_pwmPin 0) 191] := by
  decide

/-- Counterexample to C17 as stated: in the default configuration, a left motor
running forward at duty 200 that is asked for speed -50 gets the duty 191 in
reverse; the driver stores 191 as last-applied duty, and the last value
written to the left PWM pin is 64. -/
theorem vitesseMoteurs_reverse_final_write :
    speedToPwmDirection runningDriver (-50) = some (-50, 191, false) ∧
    (vitesseMoteurs runningDriver (-50) 0).map
      (fun r => (r.1.m_pwmOld 0, lastWrite (runningDriver.m_pwmPin 0) r.2))
      = some (191, some 64) ∧
    (some 64 : Option Int) ≠ some 191 := by
  decide

/-- Claim C17, amended. For a minimum duty of at least 1 and two distinct PWM
pins, every `vitesseMoteurs` call completes; the driver stores each motor's
duty, as computed by the speed mapper, as its last-applied duty; and the last
value written to each motor's PWM pin is that duty when the motor's direction
is forward and `255 - duty` when it is reverse. -/
theorem vitesseMoteurs_final_write (self : pontH) (gauche droit : Int)
    (hm : 1 ≤ self.m_regimeMinimum) (hpins : self.m_pwmPin 0 ≠ self.m_pwmPin 1) :
    ∃ st trace cG dutyG dirG cD dutyD dirD,
      vitesseMoteurs self gauche droit = some (st, trace) ∧
      speedToPwmDirection self gauche = some (cG, dutyG, dirG) ∧
      speedToPwmDirection self droit = some (cD, dutyD, dirD) ∧
      st.m_pwmOld 0 = dutyG ∧ st.m_pwmOld 1 = dutyD ∧
      lastWrite (self.m_pwmPin 0) trace = some (if dirG then dutyG else 255 - dutyG) ∧
      lastWrite (self.m_pwmPin 1) trace = some (if dirD then dutyD else 255 - dutyD) := by
  obtain ⟨cG, dutyG, dirG, hG, hG0, hG1⟩ := speedToPwmDirection_uint8 self gauche
  obtain ⟨cD, dutyD, dirD, hD, hD0, hD1⟩ := speedToPwmDirection_uint8 self droit
  obtain ⟨dG, hdG⟩ := computeOverDriveDelay_defined self 0 dutyG dirG (by omega)
  obtain ⟨dD, hdD⟩ := computeOverDriveDelay_defined self 1 dutyD dirD (by omega)
  have hwG : toUInt8 (if dirG then dutyG else 255 - dutyG)
      = if dirG then dutyG else 255 - dutyG := by
    split <;> exact toUInt8_of_range (by omega) (by omega)
  have hwD : toUInt8 (if dirD then dutyD else 255 - dutyD)
      = if dirD then dutyD else 255 - dutyD := by
    split <;> exact toUInt8_of_range (by omega) (by omega)
  have hv := vitesseMoteurs_eq self gauche droit hG hD hdG hdD
  rw [hwG, hwD] at hv
  have hl := lastWrite_applyDrive
    { self with
      m_pwmOld := fun i => if i = 0 then dutyG else dutyD
      m_directionOld := fun i => if i = 0 then dirG else dirD }
    (if dirG then dutyG else 255 - dutyG) (if dirD then dutyD else 255 - dutyD)
    dirG dirD dG dD hpins
  exact ⟨_, _, cG, dutyG, dirG, cD, dutyD, dirD, hv, hG, hD, rfl, rfl, hl.1, hl.2⟩

/-- Witness of C17, amended: the running driver asked for the speeds -50 and 30. -/
theorem vitesseMoteurs_final_write_witness :
    (1 ≤ runningDriver.m_regimeMinimum ∧ runningDriver.m_pwmPin 0 ≠ runningDriver.m_pwmPin 1) ∧
    ∃ st trace cG dutyG dirG cD dutyD dirD,
      vitesseMoteurs runningDriver (-50) 30 = some (st, trace) ∧
      speedToPwmDirection runningDriver (-50) = some (cG, dutyG, dirG) ∧
      speedToPwmDirection runningDriver 30 = some (cD, dutyD, dirD) ∧
      st.m_pwmOld 0 = dutyG ∧ st.m_pwmOld 1 = dutyD ∧
      lastWrite (runningDriver.m_pwmPin 0) trace = some (if dirG then dutyG else 255 - dutyG) ∧
      lastWrite (runningDriver.m_pwmPin 1) trace = some (if dirD then dutyD else 255 - dutyD) :=
  ⟨by decide, vitesseMoteurs_final_write runningDriver (-50) 30 (by decide) (by decide)⟩

/-- Claim C18. For every input the drive sequencer performs, in this order: the
direction write and a PWM write of 255 (forward) or 0 (reverse) for the left
motor, the same two writes for the right motor, a wait, the final PWM value
of one motor, a wait, the final PWM value of the other motor. So each motor's
direction pin is written before its PWM pin, the first PWM value of a motor
is 255 when its direction is forward and 0 when it is reverse, and no other
PWM value precedes its final one. -/
theorem applyDrive_saturated_interim (self : pontH) (pwmGauche pwmDroit : Int)
    (directionGauche directionDroite : Bool) (delaiGauche delaiDroit : Int) :
    ∃ (first second : Fin 2) (w1 w2 : Int), first ≠ second ∧
      applyDrive self pwmGauche directionGauche delaiGauche pwmDroit directionDroite delaiDroit =
        [HwEvent.digitalWrite (self.m_directionPin 0) (!directionGauche),
         HwEvent.analogWrite (self.m_pwmPin 0) (if directionGauche then 255 else 0),
         HwEvent.digitalWrite (self.m_directionPin 1) (!directionDroite),
         HwEvent.analogWrite (self.m_pwmPin 1) (if directionDroite then 255 else 0),
         HwEvent.delay w1,
         HwEvent.analogWrite (self.m_pwmPin first) (if first = 0 then pwmGauche else pwmDroit),
         HwEvent.delay w2,
         HwEvent.analogWrite (self.m_pwmPin second)
           (if second = 0 then pwmGauche else pwmDroit)] := by
  by_cases h : delaiGauche > delaiDroit
  · exact ⟨1, 0, toUInt16 (delaiGauche - delaiDroit),
      toUInt16 (delaiGauche - toUInt16 (delaiGauche - delaiDroit)), by decide,
      by simp [applyDrive, h]⟩
  · exact ⟨0, 1, toUInt16 (delaiDroit - delaiGauche),
      toUInt16 (delaiDroit - toUInt16 (delaiDroit - delaiGauche)), by decide,
      by simp [applyDrive, h]⟩

/-! ## Stop and configuration: claims C19 and C20 -/

/-- Claim C19. From every driver state, the writes of `stopMoteurs` leave 0
(`LOW`) on both PWM pins and on both direction pins, and `stopMoteurs` performs
no blocking wait. -/
theorem stopMoteurs_outputs_low (self : pontH) :
    lastWrite (self.m_pwmPin 0) (stopMoteurs self) = some 0 ∧
    lastWrite (self.m_pwmPin 1) (stopMoteurs self) = some 0 ∧
    lastWrite (self.m_directionPin 0) (stopMoteurs self) = some 0 ∧
    lastWrite (self.m_directionPin 1) (stopMoteurs self) = some 0 ∧
    waits (stopMoteurs self) = [] ∧ totalDelay (stopMoteurs self) = 0 := by
  refine ⟨?_, ?_, ?_, ?_, rfl, rfl⟩
  all_goals simp only [lastWrite, stopMoteurs, List.reverse_cons, List.reverse_nil,
    List.nil_append, List.cons_append, List.filterMap_cons, HwEvent.writeTo]
  all_goals split_ifs <;> simp_all

/-- Claim C20, evaluated where it fails. With the minimum duty set to 0 and the
left motor stopped, the speed 50 is mapped to duty 127; the overdrive
calculator then rescales over the empty domain `[0, 0]`, a division by zero,
and neither it nor `vitesseMoteurs(50, 0)` produces a result. -/
theorem vitesseMoteurs_min_duty_zero_divides_by_zero :
    speedToPwmDirection (setRegimeMinimum stoppedDriver 0) 50 = some (50, 127, true) ∧
    map (toUInt8 (127 - 0)) 0 0 0 100 = none ∧
    computeOverDriveDelay (setRegimeMinimum stoppedDriver 0) 0 127 true = none ∧
    (vitesseMoteurs (setRegimeMinimum stoppedDriver 0) 50 0).isNone = true := by
  decide

/-! ## Auxiliary facts for the tick, the repeated call and the joystick -/

/-- Truncating division of a non-negative numerator by a positive divisor. -/
theorem tdiv_of_nonneg {a b : Int} (ha : 0 ≤ a) (hb : 0 < b) : Int.tdiv a b = a / b :=
  Int.tdiv_eq_ediv ha (by omega)

/-- Truncating division of a non-positive numerator by a positive divisor. -/
theorem tdiv_of_nonpos {a b : Int} (ha : a ≤ 0) (hb : 0 < b) : Int.tdiv a b = -((-a) / b) := by
  have h : a = -(-a) := by omega
  conv_lhs => rw [h, Int.neg_tdiv]
  rw [Int.tdiv_eq_ediv (by omega) (by omega)]

/-- The speed mapper reads the driver state only through the minimum duty. -/
theorem speedToPwmDirection_congr (a b : pontH) (s : Int)
    (h : a.m_regimeMinimum = b.m_regimeMinimum) :
    speedToPwmDirection a s = speedToPwmDirection b s := by
  rw [speedToPwmDirection_eq, speedToPwmDirection_eq, h]

/-- The result of the speed mapper for a speed is its result for the clamped speed. -/
theorem speedToPwmDirection_clamp (self : pontH) (s : Int) :
    speedToPwmDirection self (max (-100) (min s 100)) = speedToPwmDirection self s := by
  rw [speedToPwmDirection_eq, speedToPwmDirection_eq self s]
  have h : max (-100) (min (max (-100) (min s 100)) 100) = max (-100) (min s 100) := by omega
  rw [h]

/-- For a minimum duty in `0..255` the duty returned by the speed mapper is 0
or lies between the minimum duty and 255. -/
theorem speedToPwmDirection_cases (self : pontH) (s : Int)
    (hm0 : 0 ≤ self.m_regimeMinimum) (hm : self.m_regimeMinimum ≤ 255) :
    ∃ c pwm dir, speedToPwmDirection self s = some (c, pwm, dir) ∧
      (pwm = 0 ∨ (self.m_regimeMinimum ≤ pwm ∧ pwm ≤ 255)) := by
  by_cases hs : s = 0
  · refine ⟨_, _, _, speedToPwmDirection_eq self s, Or.inl ?_⟩
    subst hs
    rfl
  · obtain ⟨pwm, dir, he, hr⟩ := speedToPwmDirection_of_ne_zero self s hm0 hm hs
    exact ⟨_, pwm, dir, he, Or.inr hr⟩

/-- When the new direction and the new duty are the last-applied ones, the
overdrive delay is 0. -/
theorem computeOverDriveDelay_unchanged (self : pontH) (i : Fin 2) (pwm : Int) (dir : Bool)
    (hd : self.m_directionOld i = dir) (hp : self.m_pwmOld i = pwm) :
    computeOverDriveDelay self i pwm dir = some 0 := by
  unfold computeOverDriveDelay
  by_cases h0 : pwm = 0
  · simp [h0]
  · have hg : ¬ (self.m_directionOld i ≠ dir ∨ self.m_pwmOld i = 0) := by
      rintro (h | h)
      · exact h hd
      · exact h0 (hp ▸ h)
    simp only [ne_eq, h0, not_false_eq_true, if_true, if_neg hg]

/-- In the default configuration the overdrive delay of a duty that the speed
mapper can return lies in `[0, 100]`. -/
theorem computeOverDriveDelay_default_range (self : pontH) (i : Fin 2) (pwm : Int) (dir : Bool)
    (hm : self.m_regimeMinimum = 127) (hb : self.m_overBoostDelay = 100)
    (hp : pwm = 0 ∨ (127 ≤ pwm ∧ pwm ≤ 255)) :
    ∃ d, computeOverDriveDelay self i pwm dir = some d ∧ 0 ≤ d ∧ d ≤ 100 := by
  by_cases hg : pwm ≠ 0 ∧ (self.m_directionOld i ≠ dir ∨ self.m_pwmOld i = 0)
  · have hr : 127 ≤ pwm ∧ pwm ≤ 255 := by
      rcases hp with h | h
      · exact absurd h hg.1
      · exact h
    rw [computeOverDriveDelay_compensated self i pwm dir (by omega) hg.1 hg.2, hm, hb,
      toUInt8_of_range (by omega) (by omega)]
    refine ⟨_, rfl, ?_⟩
    by_cases h255 : pwm = 255
    · subst h255
      decide
    · have hq := tdiv_nonpos_neg (a := (pwm - 127 - 127) * (100 - 0)) (b := 127)
        (by omega) (by decide)
      rw [show (0 : Int) - 127 = -127 from rfl, hq]
      rw [toInt8_of_range (by omega) (by omega)]
      omega
  · refine ⟨0, ?_, by decide, by decide⟩
    unfold computeOverDriveDelay
    by_cases h0 : pwm ≠ 0
    · have hg2 : ¬ (self.m_directionOld i ≠ dir ∨ self.m_pwmOld i = 0) := fun h => hg ⟨h0, h⟩
      rw [if_pos h0, if_neg hg2]
    · rw [if_neg h0]

/-- For two delays in `0..127` the drive sequencer waits their difference,
then the smaller one: in total the larger one. -/
theorem waits_applyDrive (self : pontH) (pwmGauche pwmDroit : Int)
    (directionGauche directionDroite : Bool) (d1 d2 : Int)
    (h1 : 0 ≤ d1) (h1u : d1 ≤ 127) (h2 : 0 ≤ d2) (h2u : d2 ≤ 127) :
    waits (applyDrive self pwmGauche directionGauche d1 pwmDroit directionDroite d2)
      = [max d1 d2 - min d1 d2, min d1 d2] ∧
    totalDelay (applyDrive self pwmGauche directionGauche d1 pwmDroit directionDroite d2)
      = max d1 d2 := by
  unfold totalDelay applyDrive
  split
  · have e1 : toUInt16 (d1 - d2) = max d1 d2 - min d1 d2 := by unfold toUInt16; omega
    have e2 : toUInt16 (d1 - (max d1 d2 - min d1 d2)) = min d1 d2 := by unfold toUInt16; omega
    simp only [waits, e1, e2, List.sum_cons, List.sum_nil]
    exact ⟨trivial, by omega⟩
  · have e1 : toUInt16 (d2 - d1) = max d1 d2 - min d1 d2 := by unfold toUInt16; omega
    have e2 : toUInt16 (d2 - (max d1 d2 - min d1 d2)) = min d1 d2 := by unfold toUInt16; omega
    simp only [waits, e1, e2, List.sum_cons, List.sum_nil]
    exact ⟨trivial, by omega⟩

/-- With the default threshold angle 45 and an unsigned angle in `[0, 180]`, the
smooth conversion returns two values in `[0, 100]`. -/
theorem smoothConversion_default_range (u : Int) (h0 : 0 ≤ u) (h1 : u ≤ 180) :
    ∃ g d, smoothConversion joystickToMotors.init u = some (g, d) ∧
      0 ≤ g ∧ g ≤ 100 ∧ 0 ≤ d ∧ d ≤ 100 := by
  have h45 : joystickToMotors.init.m_angle = 45 := rfl
  unfold smoothConversion
  rw [h45]
  simp only [map]
  by_cases c1 : u > 180 - 45
  · rw [if_pos c1, if_neg (by decide), Option.map_some',
      tdiv_of_nonpos (by omega) (by decide)]
    exact ⟨_, _, rfl, by omega⟩
  · rw [if_neg c1]
    by_cases c2 : u > 90
    · rw [if_pos c2, if_neg (by decide), Option.map_some',
        tdiv_of_nonpos (by omega) (by decide)]
      exact ⟨_, _, rfl, by omega⟩
    · rw [if_neg c2]
      by_cases c3 : u > 90 - 45
      · rw [if_pos c3, if_neg (by decide), Option.map_some',
          tdiv_of_nonneg (by omega) (by decide)]
        exact ⟨_, _, rfl, by omega⟩
      · rw [if_neg c3, if_neg (by decide), Option.map_some',
          tdiv_of_nonneg (by omega) (by decide)]
        exact ⟨_, _, rfl, by omega⟩

/-- The command `(int8_t)v * magnitude / 100` stays within `[-100, 100]` when
`v` is in `[0, 100]` and `magnitude` in `[-100, 100]`. -/
theorem command_range {v m : Int} (hv0 : 0 ≤ v) (hv : v ≤ 100) (hm0 : -100 ≤ m) (hm : m ≤ 100) :
    -100 ≤ toInt8 (Int.tdiv (toInt8 v * m) 100) ∧ toInt8 (Int.tdiv (toInt8 v * m) 100) ≤ 100 := by
  have hv8 : toInt8 v = v := toInt8_of_range (by omega) (by omega)
  rw [hv8]
  by_cases hs : 0 ≤ m
  · have hp0 : 0 ≤ v * m := Int.mul_nonneg hv0 hs
    have hp : v * m ≤ 100 * 100 := Int.mul_le_mul hv hm hs (by decide)
    rw [tdiv_of_nonneg hp0 (by decide)]
    generalize v * m = p at hp0 hp
    rw [toInt8_of_range (by omega) (by omega)]
    omega
  · have hp0 : 0 ≤ v * (-m) := Int.mul_nonneg hv0 (by omega)
    have hp : v * (-m) ≤ 100 * 100 := Int.mul_le_mul hv (by omega) (by omega) (by decide)
    have he : v * m = -(v * (-m)) := by rw [Int.mul_neg, Int.neg_neg]
    rw [he, Int.neg_tdiv, tdiv_of_nonneg hp0 (by decide)]
    generalize v * (-m) = p at hp0 hp
    rw [toInt8_of_range (by omega) (by omega)]
    omega

/-! ## Driver ticks and state: claims C21 to C24 -/

/-- Claim C21. In the default configuration (minimum duty 127, overboost delay
100), for every prior state and every pair of speeds, the two overdrive delays
that `vitesseMoteurs` computes from the mapped duties are non-negative, the call
completes, its two waits are the difference of the delays and the smaller
delay, and the total time it blocks is the larger delay, at most 100 ms. -/
theorem vitesseMoteurs_bounded_tick (self : pontH) (gauche droit : Int)
    (hm : self.m_regimeMinimum = 127) (hb : self.m_overBoostDelay = 100) :
    ∃ st trace cG dutyG dirG cD dutyD dirD dG dD,
      speedToPwmDirection self gauche = some (cG, dutyG, dirG) ∧
      speedToPwmDirection self droit = some (cD, dutyD, dirD) ∧
      computeOverDriveDelay self 0 dutyG dirG = some dG ∧
      computeOverDriveDelay self 1 dutyD dirD = some dD ∧
      0 ≤ dG ∧ 0 ≤ dD ∧
      vitesseMoteurs self gauche droit = some (st, trace) ∧
      waits trace = [max dG dD - min dG dD, min dG dD] ∧
      totalDelay trace = max dG dD ∧ totalDelay trace ≤ 100 := by
  obtain ⟨cG, dutyG, dirG, hG, hGr⟩ := speedToPwmDirection_cases self gauche (by omega) (by omega)
  obtain ⟨cD, dutyD, dirD, hD, hDr⟩ := speedToPwmDirection_cases self droit (by omega) (by omega)
  rw [hm] at hGr hDr
  obtain ⟨dG, hdG, hG0, hG1⟩ := computeOverDriveDelay_default_range self 0 dutyG dirG hm hb hGr
  obtain ⟨dD, hdD, hD0, hD1⟩ := computeOverDriveDelay_default_range self 1 dutyD dirD hm hb hDr
  have hv := vitesseMoteurs_eq self gauche droit hG hD hdG hdD
  have hw := waits_applyDrive
    { self with
      m_pwmOld := fun i => if i = 0 then dutyG else dutyD
      m_directionOld := fun i => if i = 0 then dirG else dirD }
    (toUInt8 (if dirG then dutyG else 255 - dutyG)) (toUInt8 (if dirD then dutyD else 255 - dutyD))
    dirG dirD dG dD hG0 (by omega) hD0 (by omega)
  exact ⟨_, _, cG, dutyG, dirG, cD, dutyD, dirD, dG, dD, hG, hD, hdG, hdD, hG0, hD0, hv,
    hw.1, hw.2, by rw [hw.2]; omega⟩

/-- Witness of C21: the stopped driver asked for the speeds 50 and -30. -/
theorem vitesseMoteurs_bounded_tick_witness :
    (stoppedDriver.m_regimeMinimum = 127 ∧ stoppedDriver.m_overBoostDelay = 100) ∧
    ∃ st trace cG dutyG dirG cD dutyD dirD dG dD,
      speedToPwmDirection stoppedDriver 50 = some (cG, dutyG, dirG) ∧
      speedToPwmDirection stoppedDriver (-30) = some (cD, dutyD, dirD) ∧
      computeOverDriveDelay stoppedDriver 0 dutyG dirG = some dG ∧
      computeOverDriveDelay stoppedDriver 1 dutyD dirD = some dD ∧
      0 ≤ dG ∧ 0 ≤ dD ∧
      vitesseMoteurs stoppedDriver 50 (-30) = some (st, trace) ∧
      waits trace = [max dG dD - min dG dD, min dG dD] ∧
      totalDelay trace = max dG dD ∧ totalDelay trace ≤ 100 :=
  ⟨⟨rfl, rfl⟩, vitesseMoteurs_bounded_tick stoppedDriver 50 (-30) rfl rfl⟩

/-- Claim C22. For a minimum duty of at least 1 every `vitesseMoteurs` call
completes, and in the state it leaves the last-applied duty and direction of
each motor are the duty and the direction flag that the speed mapper returns
for that motor's clamped speed; the minimum duty, the overboost delay and the
pins are unchanged. -/
theorem vitesseMoteurs_state_update (self : pontH) (gauche droit : Int)
    (hm : 1 ≤ self.m_regimeMinimum) :
    ∃ st trace cG dutyG dirG cD dutyD dirD,
      vitesseMoteurs self gauche droit = some (st, trace) ∧
      speedToPwmDirection self (max (-100) (min gauche 100)) = some (cG, dutyG, dirG) ∧
      speedToPwmDirection self (max (-100) (min droit 100)) = some (cD, dutyD, dirD) ∧
      st.m_pwmOld 0 = dutyG ∧ st.m_directionOld 0 = dirG ∧
      st.m_pwmOld 1 = dutyD ∧ st.m_directionOld 1 = dirD ∧
      st.m_regimeMinimum = self.m_regimeMinimum ∧
      st.m_overBoostDelay = self.m_overBoostDelay ∧
      st.m_pwmPin = self.m_pwmPin ∧ st.m_directionPin = self.m_directionPin := by
  obtain ⟨cG, dutyG, dirG, hG, -⟩ := speedToPwmDirection_uint8 self gauche
  obtain ⟨cD, dutyD, dirD, hD, -⟩ := speedToPwmDirection_uint8 self droit
  obtain ⟨dG, hdG⟩ := computeOverDriveDelay_defined self 0 dutyG dirG (by omega)
  obtain ⟨dD, hdD⟩ := computeOverDriveDelay_defined self 1 dutyD dirD (by omega)
  have hv := vitesseMoteurs_eq self gauche droit hG hD hdG hdD
  refine ⟨_, _, cG, dutyG, dirG, cD, dutyD, dirD, hv, ?_, ?_, rfl, rfl, rfl, rfl, rfl, rfl,
    rfl, rfl⟩
  · rw [speedToPwmDirection_clamp, hG]
  · rw [speedToPwmDirection_clamp, hD]

/-- Witness of C22: the running driver asked for the speeds -50 and 120. -/
theorem vitesseMoteurs_state_update_witness :
    1 ≤ runningDriver.m_regimeMinimum ∧
    ∃ st trace cG dutyG dirG cD dutyD dirD,
      vitesseMoteurs runningDriver (-50) 120 = some (st, trace) ∧
      speedToPwmDirection runningDriver (max (-100) (min (-50) 100)) = some (cG, dutyG, dirG) ∧
      speedToPwmDirection runningDriver (max (-100) (min 120 100)) = some (cD, dutyD, dirD) ∧
      st.m_pwmOld 0 = dutyG ∧ st.m_directionOld 0 = dirG ∧
      st.m_pwmOld 1 = dutyD ∧ st.m_directionOld 1 = dirD ∧
      st.m_regimeMinimum = runningDriver.m_regimeMinimum ∧
      st.m_overBoostDelay = runningDriver.m_overBoostDelay ∧
      st.m_pwmPin = runningDriver.m_pwmPin ∧ st.m_directionPin = runningDriver.m_directionPin :=
  ⟨by decide, vitesseMoteurs_state_update runningDriver (-50) 120 (by decide)⟩

/-- Claim C23. For a minimum duty of at least 1, any prior state and any pair of
speeds, two `vitesseMoteurs` calls in a row with the same speeds both complete,
and in the second call both overdrive delays are 0, both waits are 0 and the
total blocking time is 0 ms. -/
theorem vitesseMoteurs_repeated (self : pontH) (gauche droit : Int)
    (hm : 1 ≤ self.m_regimeMinimum) :
    ∃ st1 trace1 st2 trace2 cG dutyG dirG cD dutyD dirD,
      vitesseMoteurs self gauche droit = some (st1, trace1) ∧
      vitesseMoteurs st1 gauche droit = some (st2, trace2) ∧
      speedToPwmDirection st1 gauche = some (cG, dutyG, dirG) ∧
      speedToPwmDirection st1 droit = some (cD, dutyD, dirD) ∧
      computeOverDriveDelay st1 0 dutyG dirG = some 0 ∧
      computeOverDriveDelay st1 1 dutyD dirD = some 0 ∧
      waits trace2 = [0, 0] ∧ totalDelay trace2 = 0 := by
  obtain ⟨cG, dutyG, dirG, hG, -⟩ := speedToPwmDirection_uint8 self gauche
  obtain ⟨cD, dutyD, dirD, hD, -⟩ := speedToPwmDirection_uint8 self droit
  obtain ⟨dG, hdG⟩ := computeOverDriveDelay_defined self 0 dutyG dirG (by omega)
  obtain ⟨dD, hdD⟩ := computeOverDriveDelay_defined self 1 dutyD dirD (by omega)
  have hv := vitesseMoteurs_eq self gauche droit hG hD hdG hdD
  generalize hst : ({ self with
      m_pwmOld := fun i => if i = 0 then dutyG else dutyD
      m_directionOld := fun i => if i = 0 then dirG else dirD
      m_vitesse := fun i => if i = 0 then toUInt8 cG else toUInt8 cD } : pontH) = st1 at hv
  have hcfg : st1.m_regimeMinimum = self.m_regimeMinimum := by rw [← hst]
  have hG1 : speedToPwmDirection st1 gauche = some (cG, dutyG, dirG) := by
    rw [speedToPwmDirection_congr st1 self gauche hcfg, hG]
  have hD1 : speedToPwmDirection st1 droit = some (cD, dutyD, dirD) := by
    rw [speedToPwmDirection_congr st1 self droit hcfg, hD]
  have hdG1 : computeOverDriveDelay st1 0 dutyG dirG = some 0 :=
    computeOverDriveDelay_unchanged st1 0 dutyG dirG (by rw [← hst]; rfl) (by rw [← hst]; rfl)
  have hdD1 : computeOverDriveDelay st1 1 dutyD dirD = some 0 :=
    computeOverDriveDelay_unchanged st1 1 dutyD dirD (by rw [← hst]; rfl) (by rw [← hst]; rfl)
  have hv2 := vitesseMoteurs_eq st1 gauche droit hG1 hD1 hdG1 hdD1
  refine ⟨_, _, _, _, cG, dutyG, dirG, cD, dutyD, dirD, hv, hv2, hG1, hD1, hdG1, hdD1, ?_, ?_⟩
  · rfl
  · rfl

/-- Witness of C23: the stopped driver asked twice for the speeds 50 and -30. -/
theorem vitesseMoteurs_repeated_witness :
    1 ≤ stoppedDriver.m_regimeMinimum ∧
    ∃ st1 trace1 st2 trace2 cG dutyG dirG cD dutyD dirD,
      vitesseMoteurs stoppedDriver 50 (-30) = some (st1, trace1) ∧
      vitesseMoteurs st1 50 (-30) = some (st2, trace2) ∧
      speedToPwmDirection st1 50 = some (cG, dutyG, dirG) ∧
      speedToPwmDirection st1 (-30) = some (cD, dutyD, dirD) ∧
      computeOverDriveDelay st1 0 dutyG dirG = some 0 ∧
      computeOverDriveDelay st1 1 dutyD dirD = some 0 ∧
      waits trace2 = [0, 0] ∧ totalDelay trace2 = 0 :=
  ⟨by decide, vitesseMoteurs_repeated stoppedDriver 50 (-30) (by decide)⟩

/-- Claim C24. `stopMoteurs` hands the driver state back unchanged: last-applied
duty and direction, last requested speed, minimum duty and overboost delay are
as before, so the overdrive delay computed afterwards for any motor, duty and
direction, and the whole following `vitesseMoteurs` call, are the ones computed
without the stop. For instance a motor last applied at duty 200 forward, once
stopped (its PWM pin is left at 0), still gets the delay 0 for duty 191
forward, where a motor whose last-applied duty is 0 gets 49. -/
theorem stopMoteurs_state_unchanged (self : pontH) (gauche droit : Int) (i : Fin 2) (pwm : Int)
    (dir : Bool) :
    (stopMoteursStep self).1 = self ∧
    (stopMoteursStep self).1.m_pwmOld = self.m_pwmOld ∧
    (stopMoteursStep self).1.m_directionOld = self.m_directionOld ∧
    (stopMoteursStep self).1.m_vitesse = self.m_vitesse ∧
    (stopMoteursStep self).1.m_regimeMinimum = self.m_regimeMinimum ∧
    (stopMoteursStep self).1.m_overBoostDelay = self.m_overBoostDelay ∧
    computeOverDriveDelay (stopMoteursStep self).1 i pwm dir
      = computeOverDriveDelay self i pwm dir ∧
    vitesseMoteurs (stopMoteursStep self).1 gauche droit = vitesseMoteurs self gauche droit ∧
    lastWrite (runningDriver.m_pwmPin 0) (stopMoteursStep runningDriver).2 = some 0 ∧
    computeOverDriveDelay (stopMoteursStep runningDriver).1 0 191 true = some 0 ∧
    computeOverDriveDelay stoppedDriver 0 191 true = some 49 :=
  ⟨rfl, rfl, rfl, rfl, rfl, rfl, rfl, rfl, by decide, by decide, by decide⟩

/-! ## Collaborators: claims C25 and C26 -/

/-- Claim C25. For every radio message whose `cmd`, `gauche` and `droit` are
bytes, whatever its prior `check`, the message returned by `assignCheck` is valid,
has the same `cmd`, `gauche` and `droit`, and its `check` is
`cmd XOR gauche XOR droit`. -/
theorem assignCheck_valid (m : radioMessage)
    (hc : m.cmd < 256) (hg : m.gauche < 256) (hd : m.droit < 256) :
    messageIsValid (assignCheck m) = true ∧
    (assignCheck m).cmd = m.cmd ∧ (assignCheck m).gauche = m.gauche ∧
    (assignCheck m).droit = m.droit ∧
    (assignCheck m).check = m.cmd ^^^ m.gauche ^^^ m.droit := by
  have h1 : m.cmd ^^^ m.gauche < 2 ^ 8 := Nat.xor_lt_two_pow hc hg
  have h2 : m.cmd ^^^ m.gauche ^^^ m.droit < 2 ^ 8 := Nat.xor_lt_two_pow h1 hd
  refine ⟨?_, rfl, rfl, rfl, ?_⟩
  · simp [messageIsValid, assignCheck, computeCheck]
  · exact Nat.mod_eq_of_lt h2

/-- Witness of C25: the message with `cmd` 4, `gauche` 50, `droit` 206 and a
stale `check` 17. -/
theorem assignCheck_valid_witness :
    ((4 : Nat) < 256 ∧ (50 : Nat) < 256 ∧ (206 : Nat) < 256) ∧
    (messageIsValid (assignCheck ⟨4, 50, 206, 17⟩) = true ∧
    (assignCheck ⟨4, 50, 206, 17⟩).cmd = 4 ∧ (assignCheck ⟨4, 50, 206, 17⟩).gauche = 50 ∧
    (assignCheck ⟨4, 50, 206, 17⟩).droit = 206 ∧
    (assignCheck ⟨4, 50, 206, 17⟩).check = 4 ^^^ 50 ^^^ 206) :=
  ⟨by decide, assignCheck_valid ⟨4, 50, 206, 17⟩ (by decide) (by decide) (by decide)⟩

/-- Claim C26. With the default settings (smooth mapping, threshold angle 45),
for every whole angle in `[-180, 180]` and every magnitude in `[0, 100]`,
`polaireToMotor` returns left and right commands in `[-100, 100]`, and the two
values that `smoothConversion` computes for the unsigned angle lie in
`[0, 100]`. -/
theorem polaireToMotor_default_range (angle magnitude : Int)
    (ha0 : -180 ≤ angle) (ha : angle ≤ 180) (hm0 : 0 ≤ magnitude) (hm : magnitude ≤ 100) :
    ∃ g d gauche droit,
      polaireToMotor joystickToMotors.init angle magnitude = some (g, d) ∧
      -100 ≤ g ∧ g ≤ 100 ∧ -100 ≤ d ∧ d ≤ 100 ∧
      smoothConversion joystickToMotors.init (if angle < 0 then 0 - angle else angle)
        = some (gauche, droit) ∧
      0 ≤ gauche ∧ gauche ≤ 100 ∧ 0 ≤ droit ∧ droit ≤ 100 := by
  obtain ⟨gauche, droit, hs, hg0, hg, hd0, hd⟩ :=
    smoothConversion_default_range (if angle < 0 then 0 - angle else angle)
      (by split <;> omega) (by split <;> omega)
  have hmag : -100 ≤ (if angle < 0 then toInt8 (0 - magnitude) else magnitude) ∧
      (if angle < 0 then toInt8 (0 - magnitude) else magnitude) ≤ 100 := by
    split
    · rw [toInt8_of_range (by omega) (by omega)]; omega
    · omega
  have hG := command_range hg0 hg hmag.1 hmag.2
  have hD := command_range hd0 hd hmag.1 hmag.2
  refine ⟨_, _, gauche, droit, ?_, hG.1, hG.2, hD.1, hD.2, hs, hg0, hg, hd0, hd⟩
  have halgo : joystickToMotors.init.m_algo = mapping.smooth := rfl
  simp only [polaireToMotor, halgo, hs, Option.map_some']

/-- Witness of C26: the angle -136 and the magnitude 100. -/
theorem polaireToMotor_default_range_witness :
    ((-180 : Int) ≤ -136 ∧ (-136 : Int) ≤ 180 ∧ (0 : Int) ≤ 100 ∧ (100 : Int) ≤ 100) ∧
    ∃ g d gauche droit,
      polaireToMotor joystickToMotors.init (-136) 100 = some (g, d) ∧
      -100 ≤ g ∧ g ≤ 100 ∧ -100 ≤ d ∧ d ≤ 100 ∧
      smoothConversion joystickToMotors.init (if (-136 : Int) < 0 then 0 - (-136) else (-136))
        = some (gauche, droit) ∧
      0 ≤ gauche ∧ gauche ≤ 100 ∧ 0 ≤ droit ∧ droit ≤ 100 :=
  ⟨by decide, polaireToMotor_default_range (-136) 100
    (by decide) (by decide) (by decide) (by decide)⟩

end BateauRC
